import Mathlib

/-!
Verification development for the tidbits-memory repository.

The Python source under `src/tidbits_memory/` is shallowly embedded as
executable Lean definitions:

* ISO-8601 UTC instants are abstracted as integers (`Timestamp`).  The
  ISO encoding of instants is injective and order-preserving, so equality,
  ordering and second differences of timestamps are faithfully represented;
  the 60-second anonymous-vote cooldown of `store.py` becomes integer
  arithmetic.
* Python dicts (the `voters` mapping, the in-memory and JSON adapter
  stores) are insertion-ordered association lists with unique keys:
  assignment to an existing key replaces the value in place, a new key is
  appended, matching CPython dict semantics.
* `Optional[str]` arguments are `Option String`; Python truthiness of such
  a value (`if voter_id:`) is `truthyStr`, which maps both `None` and the
  empty string to `none`.
* Exceptions (`ValueError`, `MemoryNotFoundError`, `DuplicateVoteError`,
  `RateLimitError`) become an `Except StoreErr` result; each store
  operation also returns the (possibly unchanged) adapter state, so that
  "raises and leaves the store untouched" is an actual equation.
* The clock (`_now_iso`) and the uuid generator (`uuid.uuid4`) are passed
  in as explicit parameters (`now`, `genId`); `random.shuffle` is passed
  in as a function parameter.
-/

/-- Timestamps: ISO-8601 UTC instants abstracted as integers (seconds). -/
abbrev Timestamp := Int

/-- Python truthiness of `Optional[str]`: `None` and `""` are falsy. -/
def truthyStr (v : Option String) : Option String :=
  match v with
  | some s => if s.data.isEmpty then none else some s
  | none => none

/-- Test `not content or not content.strip()` from `create_memory`: true iff
the string consists only of whitespace (including the empty string). -/
def isBlank (s : String) : Bool :=
  s.data.all (fun c => c.isWhitespace)

/-- Python dict assignment `d[k] = v`: replace in place if the key exists,
append otherwise. -/
def dictInsert {α : Type} : List (String × α) → String → α → List (String × α)
  | [], k, v => [(k, v)]
  | (k', v') :: rest, k, v =>
    if k' = k then (k, v) :: rest else (k', v') :: dictInsert rest k v

/-- Python dict lookup `d.get(k)`. -/
def dictGet {α : Type} : List (String × α) → String → Option α
  | [], _ => none
  | (k', v) :: rest, k => if k' = k then some v else dictGet rest k

/-- Python dict deletion (`d.pop(k, None)` discarding the value). -/
def dictRemove {α : Type} : List (String × α) → String → List (String × α)
  | [], _ => []
  | (k', v) :: rest, k => if k' = k then rest else (k', v) :: dictRemove rest k

/-- Python `d.values()`. -/
def dictValues {α : Type} (d : List (String × α)) : List α :=
  d.map Prod.snd

/-- Model of `models.VoteRecord`. -/
structure VoteRecord where
  value : Int
  timestamp : Timestamp
deriving DecidableEq, Repr

/-- Model of `models.Memory`. -/
structure Memory where
  id : String
  content : String
  votes : Int
  created_at : Timestamp
  last_updated : Timestamp
  creator : Option String
  tags : List String
  voters : List (String × VoteRecord)
  last_anon_vote_at : Option Timestamp
deriving DecidableEq, Repr

/-- Wire form of a `VoteRecord` produced by `VoteRecord.to_dict`. -/
structure VoteRecordDict where
  value : Int
  timestamp : Timestamp
deriving DecidableEq, Repr

/-- Model of `VoteRecord.to_dict`. -/
def VoteRecord.to_dict (r : VoteRecord) : VoteRecordDict :=
  { value := r.value, timestamp := r.timestamp }

/-- Model of `VoteRecord.from_dict`; both keys are read with `data[...]`
and are therefore required. -/
def VoteRecord.from_dict (d : VoteRecordDict) : VoteRecord :=
  { value := d.value, timestamp := d.timestamp }

/-- Wire form of a `Memory` produced by `Memory.to_dict`.  Fields that
`Memory.from_dict` reads with `data.get(...)` are optional here; `id` and
`content` are read with `data[...]` and are required.  `creator` and
`last_anon_vote_at` may also hold a serialized `None`, which Python
`dict.get` cannot distinguish from a missing key, hence a single `Option`. -/
structure MemoryDict where
  id : String
  content : String
  votes : Option Int
  created_at : Option Timestamp
  last_updated : Option Timestamp
  creator : Option String
  tags : Option (List String)
  voters : Option (List (String × VoteRecordDict))
  last_anon_vote_at : Option Timestamp
deriving DecidableEq, Repr

/-- Model of `Memory.to_dict`: every field is emitted. -/
def Memory.to_dict (m : Memory) : MemoryDict :=
  { id := m.id
    content := m.content
    votes := some m.votes
    created_at := some m.created_at
    last_updated := some m.last_updated
    creator := m.creator
    tags := some m.tags
    voters := some (m.voters.map (fun kv => (kv.1, VoteRecord.to_dict kv.2)))
    last_anon_vote_at := m.last_anon_vote_at }

/-- Model of `Memory.from_dict` with the same defaults as the Python code
(`votes` defaults to 1, `tags` to `[]`, `voters` to `{}`; the Python
default for a missing timestamp is the empty string, represented here by
the integer 0 under the timestamp abstraction). -/
def Memory.from_dict (d : MemoryDict) : Memory :=
  { id := d.id
    content := d.content
    votes := d.votes.getD 1
    created_at := d.created_at.getD 0
    last_updated := d.last_updated.getD 0
    creator := d.creator
    tags := d.tags.getD []
    voters := (d.voters.getD []).map (fun kv => (kv.1, VoteRecord.from_dict kv.2))
    last_anon_vote_at := d.last_anon_vote_at }

/-- Error taxonomy of `store.py`: `ValueError`, `MemoryNotFoundError`,
`DuplicateVoteError`, `RateLimitError`. -/
inductive StoreErr where
  | invalidInput
  | notFound
  | duplicateVote
  | rateLimited
deriving DecidableEq, Repr

/-- State of the store as seen through its adapter: id-keyed mapping,
as in `InMemoryAdapter._data`. -/
abbrev StoreState := List (String × Memory)

/-- The `_ANON_VOTE_COOLDOWN` constant: `timedelta(minutes=1)`, 60 seconds. -/
def _ANON_VOTE_COOLDOWN : Int := 60

/-- Model of `MemoryStore.create_memory`.  `now` is the value of
`self._now_iso()`, `genId` the uuid chosen for the new memory. -/
def create_memory (st : StoreState) (now : Timestamp) (genId : String)
    (content : String) (creator : Option String) (tags : Option (List String))
    (voterId : Option String) : StoreState × Except StoreErr Memory :=
  if content.data.isEmpty || isBlank content then (st, .error .invalidInput)
  else
    let mem : Memory :=
      { id := genId
        content := content
        votes := 1
        created_at := now
        last_updated := now
        creator := creator
        tags := tags.getD []   -- Python `tags or []`
        voters :=
          match truthyStr voterId with
          | some v => [(v, { value := 1, timestamp := now })]
          | none => []
        last_anon_vote_at := none }
    (dictInsert st mem.id mem, .ok mem)

/-- Model of `MemoryStore._vote`. -/
def _vote (st : StoreState) (now : Timestamp) (memoryId : String)
    (direction : Int) (voterId : Option String) (n : Int) :
    StoreState × Except StoreErr Memory :=
  if n < 1 then (st, .error .invalidInput)
  else
    match dictGet st memoryId with
    | none => (st, .error .notFound)
    | some mem =>
      match truthyStr voterId with
      | some v =>
        if (dictGet mem.voters v).isSome then (st, .error .duplicateVote)
        else
          let mem' :=
            { mem with
                voters := dictInsert mem.voters v
                  { value := direction * n, timestamp := now }
                votes := mem.votes + direction * n
                last_updated := now }
          (dictInsert st mem'.id mem', .ok mem')
      | none =>
        match mem.last_anon_vote_at with
        | some last =>
          if now - last < _ANON_VOTE_COOLDOWN then (st, .error .rateLimited)
          else
            let mem' :=
              { mem with
                  last_anon_vote_at := some now
                  votes := mem.votes + direction * n
                  last_updated := now }
            (dictInsert st mem'.id mem', .ok mem')
        | none =>
          let mem' :=
            { mem with
                last_anon_vote_at := some now
                votes := mem.votes + direction * n
                last_updated := now }
          (dictInsert st mem'.id mem', .ok mem')

/-- Model of `MemoryStore.upvote_memory`. -/
def upvote_memory (st : StoreState) (now : Timestamp) (memoryId : String)
    (voterId : Option String) (n : Int) : StoreState × Except StoreErr Memory :=
  _vote st now memoryId 1 voterId n

/-- Model of `MemoryStore.downvote_memory`. -/
def downvote_memory (st : StoreState) (now : Timestamp) (memoryId : String)
    (voterId : Option String) (n : Int) : StoreState × Except StoreErr Memory :=
  _vote st now memoryId (-1) voterId n

/-- Model of `MemoryStore.unvote_memory`. -/
def unvote_memory (st : StoreState) (now : Timestamp) (memoryId : String)
    (voterId : String) : StoreState × Except StoreErr Memory :=
  match dictGet st memoryId with
  | none => (st, .error .notFound)
  | some mem =>
    match dictGet mem.voters voterId with
    | none => (st, .ok mem)   -- nothing to undo, no save
    | some record =>
      let mem' :=
        { mem with
            voters := dictRemove mem.voters voterId
            votes := mem.votes - record.value
            last_updated := now }
      (dictInsert st mem'.id mem', .ok mem')

/-- Stable insert for descending insertion sort on an integer key. -/
def insertByDesc (key : Memory → Int) (x : Memory) : List Memory → List Memory
  | [] => [x]
  | y :: ys => if key y ≤ key x then x :: y :: ys else y :: insertByDesc key x ys

/-- Stable descending sort on an integer key, modelling Python
`list.sort(key=..., reverse=True)`. -/
def sortByDesc (key : Memory → Int) : List Memory → List Memory
  | [] => []
  | x :: xs => insertByDesc key x (sortByDesc key xs)

/-- Tag filtering step of `MemoryStore.list_memories`: when `tags` is truthy
keep the memories whose tag set intersects it (`tag_set & set(m.tags)`). -/
def filterByTags (tags : Option (List String)) (memories : List Memory) :
    List Memory :=
  match tags with
  | some ts =>
    if ts.isEmpty then memories
    else memories.filter (fun m => ts.any (fun t => m.tags.contains t))
  | none => memories

/-- Truncation step of `MemoryStore.list_memories`: `memories[:limit]` when
a limit is given. -/
def truncateTo (limit : Option Nat) (l : List Memory) : List Memory :=
  match limit with
  | some k => l.take k
  | none => l

/-- Model of `MemoryStore.list_memories`. -/
def list_memories (st : StoreState) (order_by : String) (limit : Option Nat)
    (tags : Option (List String)) : Except StoreErr (List Memory) :=
  if !(order_by = "votes" || order_by = "created_at") then .error .invalidInput
  else
    let memories := dictValues st
    let memories := filterByTags tags memories
    let memories :=
      if order_by = "votes" then sortByDesc (fun m => m.votes) memories
      else sortByDesc (fun m => m.created_at) memories
    .ok (truncateTo limit memories)

/-- Values of the item dicts built by `MemoryStore.get_memories`. -/
inductive JVal where
  | str : String → JVal
  | strs : List String → JVal
deriving DecidableEq, Repr

/-- The item dict `{"id": m.id, "content": m.content, "tags": m.tags}`
from `MemoryStore.get_memories`, as an ordered key-value list. -/
def memoryItem (m : Memory) : List (String × JVal) :=
  [("id", .str m.id), ("content", .str m.content), ("tags", .strs m.tags)]

/-- Response of `MemoryStore.get_memories`: the `"memories"` key and the
optional `"voter_id"` key. -/
structure GetMemoriesResult where
  memories : List (List (String × JVal))
  voter_id : Option String
deriving DecidableEq, Repr

/-- Model of `MemoryStore.get_memories`.  `shuffle` stands for the effect of
`random.shuffle`, `genId` for the uuid returned by `create_voter_id`. -/
def get_memories (st : StoreState) (voterId : Option String)
    (shuffle : List Memory → List Memory) (genId : String) : GetMemoriesResult :=
  let generated : Option String :=
    match truthyStr voterId with
    | some _ => none
    | none => some genId
  let items := (shuffle (dictValues st)).map memoryItem
  { memories := items
    voter_id := truthyStr generated }   -- `if generated_voter_id:`

/-- Model of `MemoryStore.remove_memory`. -/
def remove_memory (st : StoreState) (memoryId : String) : StoreState × Bool :=
  ((dictRemove st memoryId), (dictGet st memoryId).isSome)

/-- Model of `MemoryStore.get_memory`. -/
def get_memory (st : StoreState) (memoryId : String) : Option Memory :=
  dictGet st memoryId

/-- Modelled from the spec: `MemoryStore.update_memory` is exercised by the
repository tests (`tests/test_store_memory.py`) and exposed by the tool
layer, but its definition is missing from `src/tidbits_memory/store.py`.
Spec section 4.3: `update(id, content?, tags?)` fails with not-found on an
unknown id; a supplied content is validated exactly as in create (rejecting
empty or whitespace-only content); votes and voters are preserved
untouched; `last_updated` advances; the updated memory is returned. -/
def update_memory (st : StoreState) (now : Timestamp) (memoryId : String)
    (content : Option String) (tags : Option (List String)) :
    StoreState × Except StoreErr Memory :=
  match dictGet st memoryId with
  | none => (st, .error .notFound)
  | some mem =>
    match content with
    | some c =>
      if c.data.isEmpty || isBlank c then (st, .error .invalidInput)
      else
        let mem' :=
          { mem with
              content := c
              tags := tags.getD mem.tags
              last_updated := now }
        (dictInsert st mem'.id mem', .ok mem')
    | none =>
      let mem' := { mem with tags := tags.getD mem.tags, last_updated := now }
      (dictInsert st mem'.id mem', .ok mem')

/-- Sum of the `value` fields of the live voters of a memory. -/
def sumVoterValues (voters : List (String × VoteRecord)) : Int :=
  (voters.map (fun kv => kv.2.value)).sum

/-- State of `adapters/memory.py` (`InMemoryAdapter._data`): an id-keyed
dict of memories.  Deep copies are identities in a pure model. -/
abbrev MemState := List (String × Memory)

/-- Model of `InMemoryAdapter.save`. -/
def InMemoryAdapter.save (st : MemState) (m : Memory) : MemState :=
  dictInsert st m.id m

/-- Model of `InMemoryAdapter.get`. -/
def InMemoryAdapter.get (st : MemState) (memoryId : String) : Option Memory :=
  dictGet st memoryId

/-- Model of `InMemoryAdapter.delete` (`pop` result turned into a flag). -/
def InMemoryAdapter.delete (st : MemState) (memoryId : String) :
    MemState × Bool :=
  (dictRemove st memoryId, (dictGet st memoryId).isSome)

/-- Model of `InMemoryAdapter.list_all`. -/
def InMemoryAdapter.list_all (st : MemState) : List Memory :=
  dictValues st

/-- State of `adapters/json_file.py`: the single JSON document mapping
memory id to serialized memory. -/
abbrev JsonState := List (String × MemoryDict)

/-- Model of `JsonFileAdapter.save`: read the document, set
`data[memory.id] = memory.to_dict()`, write it back atomically. -/
def JsonFileAdapter.save (st : JsonState) (m : Memory) : JsonState :=
  dictInsert st m.id (Memory.to_dict m)

/-- Model of `JsonFileAdapter.get`; the dicts written by `save` are
non-empty, so the `if raw` truthiness test is the `Option` match. -/
def JsonFileAdapter.get (st : JsonState) (memoryId : String) : Option Memory :=
  (dictGet st memoryId).map Memory.from_dict

/-- Model of `JsonFileAdapter.delete`. -/
def JsonFileAdapter.delete (st : JsonState) (memoryId : String) :
    JsonState × Bool :=
  if (dictGet st memoryId).isSome then (dictRemove st memoryId, true)
  else (st, false)

/-- Model of `JsonFileAdapter.list_all`. -/
def JsonFileAdapter.list_all (st : JsonState) : List Memory :=
  (st.map Prod.snd).map Memory.from_dict

/-- One row of the `memories` table of `adapters/sqlite.py`; the `tags` and
`voters` columns hold JSON text, represented by the decoded values (JSON
encoding of these shapes is injective). -/
structure SqliteRow where
  id : String
  content : String
  votes : Int
  created_at : Timestamp
  last_updated : Timestamp
  creator : Option String
  tags : List String
  voters : List (String × VoteRecordDict)
  last_anon_vote_at : Option Timestamp
deriving DecidableEq, Repr

/-- Model of `SqliteAdapter._memory_to_params`. -/
def SqliteAdapter.memory_to_params (m : Memory) : SqliteRow :=
  { id := m.id
    content := m.content
    votes := m.votes
    created_at := m.created_at
    last_updated := m.last_updated
    creator := m.creator
    tags := m.tags
    voters := m.voters.map (fun kv => (kv.1, VoteRecord.to_dict kv.2))
    last_anon_vote_at := m.last_anon_vote_at }

/-- Model of `SqliteAdapter._row_to_memory`. -/
def SqliteAdapter.row_to_memory (r : SqliteRow) : Memory :=
  { id := r.id
    content := r.content
    votes := r.votes
    created_at := r.created_at
    last_updated := r.last_updated
    creator := r.creator
    tags := r.tags
    voters := r.voters.map (fun kv => (kv.1, VoteRecord.from_dict kv.2))
    last_anon_vote_at := r.last_anon_vote_at }

/-- Model of `SqliteAdapter.save`: `INSERT ... ON CONFLICT(id) DO UPDATE`.
The conflict branch SETs content, votes, last_updated, creator, tags,
voters and last_anon_vote_at from the excluded row; `created_at` is not in
the SET list and keeps the stored value. -/
def SqliteAdapter.save (st : List SqliteRow) (m : Memory) : List SqliteRow :=
  match st with
  | [] => [SqliteAdapter.memory_to_params m]
  | r :: rest =>
    if r.id = m.id then
      { r with
          content := m.content
          votes := m.votes
          last_updated := m.last_updated
          creator := m.creator
          tags := m.tags
          voters := m.voters.map (fun kv => (kv.1, VoteRecord.to_dict kv.2))
          last_anon_vote_at := m.last_anon_vote_at } :: rest
    else r :: SqliteAdapter.save rest m

/-- Model of `SqliteAdapter.get` (`SELECT * ... WHERE id = ?`, first row). -/
def SqliteAdapter.get (st : List SqliteRow) (memoryId : String) :
    Option Memory :=
  (st.find? (fun r => r.id == memoryId)).map SqliteAdapter.row_to_memory

/-- Model of `SqliteAdapter.delete` (`DELETE ... WHERE id = ?`, returning
whether the rowcount was positive). -/
def SqliteAdapter.delete (st : List SqliteRow) (memoryId : String) :
    List SqliteRow × Bool :=
  (st.filter (fun r => !(r.id == memoryId)), st.any (fun r => r.id == memoryId))

/-- Model of `SqliteAdapter.list_all`. -/
def SqliteAdapter.list_all (st : List SqliteRow) : List Memory :=
  st.map SqliteAdapter.row_to_memory

/-- A call through the storage adapter interface (the operations the Store
issues that change adapter state). -/
inductive AdapterOp where
  | save (m : Memory)
  | delete (memoryId : String)

/-- Run a sequence of adapter calls against the in-memory backend. -/
def runMem : List AdapterOp → MemState → MemState
  | [], st => st
  | .save m :: ops, st => runMem ops (InMemoryAdapter.save st m)
  | .delete i :: ops, st => runMem ops (InMemoryAdapter.delete st i).1

/-- Run a sequence of adapter calls against the JSON-file backend. -/
def runJson : List AdapterOp → JsonState → JsonState
  | [], st => st
  | .save m :: ops, st => runJson ops (JsonFileAdapter.save st m)
  | .delete i :: ops, st => runJson ops (JsonFileAdapter.delete st i).1

/-- Run a sequence of adapter calls against the SQLite backend. -/
def runSql : List AdapterOp → List SqliteRow → List SqliteRow
  | [], st => st
  | .save m :: ops, st => runSql ops (SqliteAdapter.save st m)
  | .delete i :: ops, st => runSql ops (SqliteAdapter.delete st i).1

/-- A call trace keeps creation instants when every save whose id is
already stored carries the stored `created_at` unchanged (tracked against
the in-memory run). -/
def keepsCreated : List AdapterOp → MemState → Bool
  | [], _ => true
  | .save m :: ops, st =>
    ((dictGet st m.id).all fun m0 => m0.created_at == m.created_at) &&
      keepsCreated ops (InMemoryAdapter.save st m)
  | .delete i :: ops, st => keepsCreated ops (InMemoryAdapter.delete st i).1

/-- Encode an in-memory adapter state as the JSON document the file
backend would hold. -/
def encodeJson (st : MemState) : JsonState :=
  st.map (fun kv => (kv.1, Memory.to_dict kv.2))

/-- Encode an in-memory adapter state as the table the SQLite backend
would hold. -/
def encodeSql (st : MemState) : List SqliteRow :=
  st.map (fun kv => SqliteAdapter.memory_to_params kv.2)

/-- Well-formedness of a dict adapter state: entries are keyed by the id
of the stored memory and keys are unique.  Both hold for every state
reachable through the adapter interface. -/
def GoodState (st : MemState) : Prop :=
  (∀ kv ∈ st, kv.2.id = kv.1) ∧ (st.map Prod.fst).Nodup

/-- One call of the per-memory voting interface used to state the vote
conservation invariant: an upvote, a downvote, or an unvote on a fixed
memory id. -/
inductive VoteCall where
  | up (voterId : Option String) (n : Int) (now : Timestamp)
  | down (voterId : Option String) (n : Int) (now : Timestamp)
  | un (voterId : String) (now : Timestamp)

/-- Apply one voting call to the store, keeping the resulting state
(whether or not the call succeeded). -/
def applyVoteCall (memoryId : String) (st : StoreState) : VoteCall → StoreState
  | .up v n now => (upvote_memory st now memoryId v n).1
  | .down v n now => (downvote_memory st now memoryId v n).1
  | .un v now => (unvote_memory st now memoryId v).1

/-- Apply a sequence of voting calls to the store. -/
def runVoteCalls (memoryId : String) (st : StoreState) :
    List VoteCall → StoreState
  | [] => st
  | c :: cs => runVoteCalls memoryId (applyVoteCall memoryId st c) cs

/-- A voting call is named when it is an unvote or carries a truthy
(non-empty) voter id, i.e. it is not an anonymous vote. -/
def namedCall : VoteCall → Bool
  | .up v _ _ => (truthyStr v).isSome
  | .down v _ _ => (truthyStr v).isSome
  | .un _ _ => true

/-- Sample voters mapping used by concrete witness instances. -/
def sampleVoters : List (String × VoteRecord) :=
  [("v1", { value := 1, timestamp := 0 })]

/-- Sample stored memory used by concrete witness instances. -/
def sampleMem : Memory :=
  { id := "m1"
    content := "hello"
    votes := 1
    created_at := 0
    last_updated := 0
    creator := none
    tags := ["python"]
    voters := sampleVoters
    last_anon_vote_at := none }

/-- Sample store holding `sampleMem`. -/
def sampleStore : StoreState := [("m1", sampleMem)]

/-- Sample memory carrying an anonymous-vote stamp at instant 0. -/
def anonMem : Memory :=
  { sampleMem with id := "m2", voters := [], last_anon_vote_at := some 0 }

/-- Sample store holding `anonMem`. -/
def anonStore : StoreState := [("m2", anonMem)]

/-- The memory produced by creating with voter v1, upvoting as v2 at
instant 1, then unvoting v1 at instant 2 (used by a witness). -/
def conservationMem : Memory :=
  { id := "m9"
    content := "hello"
    votes := 1
    created_at := 0
    last_updated := 2
    creator := none
    tags := []
    voters := [("v2", { value := 1, timestamp := 1 })]
    last_anon_vote_at := none }

/-- First save of the adapter counterexample: id "a" created at instant 1. -/
def cexMemA : Memory :=
  { id := "a"
    content := "x"
    votes := 1
    created_at := 1
    last_updated := 1
    creator := none
    tags := []
    voters := []
    last_anon_vote_at := none }

/-- Second save of the adapter counterexample: same id, new creation
instant. -/
def cexMemB : Memory :=
  { cexMemA with content := "y", created_at := 2 }

theorem string_ne_empty_data (v : String) (hv : v ≠ "") : v.data.isEmpty = false := by
  cases v with
  | mk data =>
    cases data with
    | nil => exact absurd (by decide) hv
    | cons c cs => rfl

theorem truthyStr_some (v : String) (hv : v ≠ "") : truthyStr (some v) = some v := by
  simp [truthyStr, string_ne_empty_data v hv]

theorem dictGet_insert_self {α : Type} (st : List (String × α)) (k : String) (v : α) :
    dictGet (dictInsert st k v) k = some v := by
  induction st with
  | nil => simp [dictInsert, dictGet]
  | cons kv rest ih =>
    obtain ⟨k', v'⟩ := kv
    by_cases h : k' = k
    · simp [dictInsert, dictGet, h]
    · simp [dictInsert, dictGet, h, ih]

theorem dictRemove_eq_of_get_none {α : Type} (st : List (String × α)) (k : String)
    (h : dictGet st k = none) : dictRemove st k = st := by
  induction st with
  | nil => rfl
  | cons kv rest ih =>
    obtain ⟨k', v'⟩ := kv
    by_cases hk : k' = k
    · simp [dictGet, hk] at h
    · simp [dictGet, hk] at h
      simp [dictRemove, hk, ih h]

theorem sumVoterValues_insert (voters : List (String × VoteRecord)) (v : String)
    (r : VoteRecord) (h : dictGet voters v = none) :
    sumVoterValues (dictInsert voters v r) = sumVoterValues voters + r.value := by
  induction voters with
  | nil => simp [dictInsert, sumVoterValues]
  | cons kv rest ih =>
    obtain ⟨k', v'⟩ := kv
    by_cases hk : k' = v
    · simp [dictGet, hk] at h
    · simp [dictGet, hk] at h
      simp [dictInsert, hk, sumVoterValues] at ih ⊢
      rw [ih h]
      omega

theorem sumVoterValues_remove (voters : List (String × VoteRecord)) (v : String)
    (r : VoteRecord) (h : dictGet voters v = some r) :
    sumVoterValues (dictRemove voters v) = sumVoterValues voters - r.value := by
  induction voters with
  | nil => simp [dictGet] at h
  | cons kv rest ih =>
    obtain ⟨k', v'⟩ := kv
    by_cases hk : k' = v
    · simp [dictGet, hk] at h
      simp [dictRemove, hk, sumVoterValues, h]
    · simp [dictGet, hk] at h
      simp [dictRemove, hk, sumVoterValues] at ih ⊢
      rw [ih h]
      omega

theorem voters_roundtrip (l : List (String × VoteRecord)) :
    ((l.map fun kv => (kv.1, VoteRecord.to_dict kv.2)).map
      fun kv => (kv.1, VoteRecord.from_dict kv.2)) = l := by
  induction l with
  | nil => rfl
  | cons kv rest ih =>
    simp only [List.map_cons]
    rw [ih]
    rfl

theorem mem_from_to_dict (m : Memory) : Memory.from_dict (Memory.to_dict m) = m := by
  simp [Memory.from_dict, Memory.to_dict, voters_roundtrip m.voters]

/-- C6: for every memory m (and vote record r), `Memory.from_dict` composed
with `Memory.to_dict` is the identity, with every voter entry preserved in
its semantic type; this covers empty tags and empty voters since m ranges
over all memories. -/
theorem serialization_roundtrip (m : Memory) (r : VoteRecord) :
    Memory.from_dict (Memory.to_dict m) = m ∧
    VoteRecord.from_dict (VoteRecord.to_dict r) = r :=
  ⟨mem_from_to_dict m, rfl⟩

/-- C8: on an existing memory, unvoting a voter with no recorded vote
succeeds and returns the memory with the store unchanged; unvoting a voter
with a recorded vote removes that entry, subtracts its recorded value from
votes, and advances last_updated. -/
theorem unvote_idempotent (st : StoreState) (now : Timestamp) (memoryId : String)
    (m : Memory) (v : String) (hget : dictGet st memoryId = some m) :
    (dictGet m.voters v = none → unvote_memory st now memoryId v = (st, .ok m)) ∧
    (∀ r0, dictGet m.voters v = some r0 →
      unvote_memory st now memoryId v =
        (dictInsert st m.id
          { m with
              voters := dictRemove m.voters v
              votes := m.votes - r0.value
              last_updated := now },
         .ok { m with
                 voters := dictRemove m.voters v
                 votes := m.votes - r0.value
                 last_updated := now })) := by
  constructor
  · intro h
    simp [unvote_memory, hget, h]
  · intro r0 h
    simp [unvote_memory, hget, h]

/-- Witness for C8 at concrete inputs: both branches exercised on
`sampleStore`. -/
theorem unvote_idempotent_witness :
    unvote_memory sampleStore 5 "m1" "nobody" = (sampleStore, .ok sampleMem) ∧
    unvote_memory sampleStore 5 "m1" "v1" =
      (dictInsert sampleStore sampleMem.id
        { sampleMem with
            voters := dictRemove sampleMem.voters "v1"
            votes := sampleMem.votes - 1
            last_updated := 5 },
       .ok { sampleMem with
               voters := dictRemove sampleMem.voters "v1"
               votes := sampleMem.votes - 1
               last_updated := 5 }) :=
  ⟨(unvote_idempotent sampleStore 5 "m1" sampleMem "nobody" (by decide)).1 (by decide),
   (unvote_idempotent sampleStore 5 "m1" sampleMem "v1" (by decide)).2
     { value := 1, timestamp := 0 } (by decide)⟩

/-- C2: a vote (up or down, any magnitude at least 1) by a non-empty voter
id that already has an entry in the voters mapping of the target memory
fails with duplicate-vote and returns the store state unchanged.  (Entries
in `voters` are only ever created for non-empty voter ids: an empty id is
falsy in Python and takes the anonymous path.) -/
theorem dedupe_atomic (st : StoreState) (now : Timestamp) (memoryId : String)
    (m : Memory) (v : String) (n : Int)
    (hget : dictGet st memoryId = some m) (hv : v ≠ "")
    (hdup : (dictGet m.voters v).isSome = true) (hn : 1 ≤ n) :
    upvote_memory st now memoryId (some v) n = (st, .error .duplicateVote) ∧
    downvote_memory st now memoryId (some v) n = (st, .error .duplicateVote) := by
  have hlt : ¬(n < 1) := by omega
  have ht := truthyStr_some v hv
  constructor <;>
    simp [upvote_memory, downvote_memory, _vote, hlt, hget, ht, hdup]

/-- Witness for C2: voter v1 already voted on `sampleMem` (the implicit
creation entry), so a second upvote is rejected with the store unchanged. -/
theorem dedupe_atomic_witness :
    upvote_memory sampleStore 5 "m1" (some "v1") 1 =
      (sampleStore, .error .duplicateVote) :=
  (dedupe_atomic sampleStore 5 "m1" sampleMem "v1" 1 (by decide) (by decide)
    (by decide) (by decide)).1

/-- C3: `update_memory` fails with not-found on an unknown id; on an
existing memory it validates a supplied content with exactly the guard of
create (`not content or not content.strip()`), rejecting blank content
with invalid-input and no mutation; on valid content it updates content
and tags, leaves votes and voters untouched, advances last_updated, saves
and returns the updated memory. -/
theorem update_semantics (st : StoreState) (now : Timestamp) (memoryId : String)
    (m : Memory) (c : String) (tags : Option (List String)) :
    (dictGet st memoryId = none →
      update_memory st now memoryId (some c) tags = (st, .error .notFound)) ∧
    (dictGet st memoryId = some m → (c.data.isEmpty || isBlank c) = true →
      update_memory st now memoryId (some c) tags = (st, .error .invalidInput)) ∧
    (dictGet st memoryId = some m → (c.data.isEmpty || isBlank c) = false →
      update_memory st now memoryId (some c) tags =
        (dictInsert st m.id
          { m with content := c, tags := tags.getD m.tags, last_updated := now },
         .ok { m with content := c, tags := tags.getD m.tags, last_updated := now })) := by
  refine ⟨fun h => ?_, fun h hb => ?_, fun h hb => ?_⟩
  · simp [update_memory, h]
  · simp [update_memory, h, hb]
  · simp [update_memory, h, hb]

/-- Witness for C3: not-found on an unknown id, and a successful content
update on `sampleStore`. -/
theorem update_semantics_witness :
    update_memory sampleStore 7 "bad-id" (some "x") none =
      (sampleStore, .error .notFound) ∧
    update_memory sampleStore 7 "m1" (some "new content") none =
      (dictInsert sampleStore sampleMem.id
        { sampleMem with content := "new content", tags := sampleMem.tags,
                         last_updated := 7 },
       .ok { sampleMem with content := "new content", tags := sampleMem.tags,
                            last_updated := 7 }) :=
  ⟨(update_semantics sampleStore 7 "bad-id" sampleMem "x" none).1 (by decide),
   (update_semantics sampleStore 7 "m1" sampleMem "new content" none).2.2
     (by decide) (by decide)⟩

/-- C4: an anonymous vote (no voter id) on an existing memory with
magnitude at least 1 fails with rate-limited and no mutation when the
previous anonymous vote is strictly less than 60 seconds old; with no
previous anonymous vote, or one at least 60 seconds old, it succeeds,
adds direction times magnitude to votes, stamps last_anon_vote_at with the
current instant, advances last_updated, and leaves voters untouched. -/
theorem anon_cooldown (st : StoreState) (now : Timestamp) (memoryId : String)
    (m : Memory) (n : Int)
    (hget : dictGet st memoryId = some m) (hn : 1 ≤ n) :
    (∀ last, m.last_anon_vote_at = some last → now - last < 60 →
      upvote_memory st now memoryId none n = (st, .error .rateLimited) ∧
      downvote_memory st now memoryId none n = (st, .error .rateLimited)) ∧
    (m.last_anon_vote_at = none →
      upvote_memory st now memoryId none n =
        (dictInsert st m.id
          { m with last_anon_vote_at := some now, votes := m.votes + 1 * n,
                   last_updated := now },
         .ok { m with last_anon_vote_at := some now, votes := m.votes + 1 * n,
                      last_updated := now }) ∧
      downvote_memory st now memoryId none n =
        (dictInsert st m.id
          { m with last_anon_vote_at := some now, votes := m.votes + (-1) * n,
                   last_updated := now },
         .ok { m with last_anon_vote_at := some now, votes := m.votes + (-1) * n,
                      last_updated := now })) ∧
    (∀ last, m.last_anon_vote_at = some last → 60 ≤ now - last →
      upvote_memory st now memoryId none n =
        (dictInsert st m.id
          { m with last_anon_vote_at := some now, votes := m.votes + 1 * n,
                   last_updated := now },
         .ok { m with last_anon_vote_at := some now, votes := m.votes + 1 * n,
                      last_updated := now }) ∧
      downvote_memory st now memoryId none n =
        (dictInsert st m.id
          { m with last_anon_vote_at := some now, votes := m.votes + (-1) * n,
                   last_updated := now },
         .ok { m with last_anon_vote_at := some now, votes := m.votes + (-1) * n,
                      last_updated := now })) := by
  have hlt : ¬(n < 1) := by omega
  refine ⟨fun last hl hcool => ?_, fun hl => ?_, fun last hl hcool => ?_⟩
  · constructor <;>
      simp [upvote_memory, downvote_memory, _vote, truthyStr, hlt, hget, hl,
        _ANON_VOTE_COOLDOWN, hcool]
  · constructor <;>
      simp [upvote_memory, downvote_memory, _vote, truthyStr, hlt, hget, hl]
  · have hnc : ¬(now - last < _ANON_VOTE_COOLDOWN) := Int.not_lt.mpr hcool
    constructor <;>
      simp [upvote_memory, downvote_memory, _vote, truthyStr, hlt, hget, hl, hnc]

/-- Witness for C4: a second anonymous vote 30 seconds after the first is
rate-limited; at exactly 60 seconds it succeeds. -/
theorem anon_cooldown_witness :
    upvote_memory anonStore 30 "m2" none 1 = (anonStore, .error .rateLimited) ∧
    upvote_memory anonStore 60 "m2" none 1 =
      (dictInsert anonStore anonMem.id
        { anonMem with last_anon_vote_at := some 60,
                       votes := anonMem.votes + 1 * 1, last_updated := 60 },
       .ok { anonMem with last_anon_vote_at := some 60,
                          votes := anonMem.votes + 1 * 1, last_updated := 60 }) :=
  ⟨((anon_cooldown anonStore 30 "m2" anonMem 1 (by decide) (by decide)).1
      0 (by decide) (by decide)).1,
   ((anon_cooldown anonStore 60 "m2" anonMem 1 (by decide) (by decide)).2.2
      0 (by decide) (by decide)).1⟩

theorem applyVoteCall_preserves (memoryId : String) (st : StoreState) (c : VoteCall)
    (hc : namedCall c = true) (m : Memory) (cinv : Int)
    (hget : dictGet st memoryId = some m) (hid : m.id = memoryId)
    (hinv : m.votes = 1 + sumVoterValues m.voters - cinv) :
    ∃ m1, dictGet (applyVoteCall memoryId st c) memoryId = some m1 ∧
      m1.id = memoryId ∧ m1.votes = 1 + sumVoterValues m1.voters - cinv := by
  cases c with
  | up v n now =>
    simp only [namedCall] at hc
    obtain ⟨s, hs⟩ := Option.isSome_iff_exists.mp hc
    by_cases hn : n < 1
    · refine ⟨m, ?_, hid, hinv⟩
      simpa [applyVoteCall, upvote_memory, _vote, hn] using hget
    · by_cases hdup : (dictGet m.voters s).isSome = true
      · refine ⟨m, ?_, hid, hinv⟩
        simp [applyVoteCall, upvote_memory, _vote, hn, hget, hs, hdup]
      · have hnone : dictGet m.voters s = none := by
          cases hv2 : dictGet m.voters s with
          | none => rfl
          | some r1 => simp [hv2] at hdup
        refine ⟨{ m with
            voters := dictInsert m.voters s { value := 1 * n, timestamp := now }
            votes := m.votes + 1 * n
            last_updated := now }, ?_, by simp [hid], ?_⟩
        · simp only [applyVoteCall, upvote_memory, _vote, if_neg hn, hget, hs, hdup]
          simp only [Bool.false_eq_true, if_false]
          rw [show ({ m with
              voters := dictInsert m.voters s { value := 1 * n, timestamp := now }
              votes := m.votes + 1 * n
              last_updated := now } : Memory).id = memoryId from hid]
          exact dictGet_insert_self st memoryId _
        · have hsum := sumVoterValues_insert m.voters s
            { value := 1 * n, timestamp := now } hnone
          simp only at hsum ⊢
          rw [hsum]
          omega
  | down v n now =>
    simp only [namedCall] at hc
    obtain ⟨s, hs⟩ := Option.isSome_iff_exists.mp hc
    by_cases hn : n < 1
    · refine ⟨m, ?_, hid, hinv⟩
      simpa [applyVoteCall, downvote_memory, _vote, hn] using hget
    · by_cases hdup : (dictGet m.voters s).isSome = true
      · refine ⟨m, ?_, hid, hinv⟩
        simp [applyVoteCall, downvote_memory, _vote, hn, hget, hs, hdup]
      · have hnone : dictGet m.voters s = none := by
          cases hv2 : dictGet m.voters s with
          | none => rfl
          | some r1 => simp [hv2] at hdup
        refine ⟨{ m with
            voters := dictInsert m.voters s { value := (-1) * n, timestamp := now }
            votes := m.votes + (-1) * n
            last_updated := now }, ?_, by simp [hid], ?_⟩
        · simp only [applyVoteCall, downvote_memory, _vote, if_neg hn, hget, hs, hdup]
          simp only [Bool.false_eq_true, if_false]
          rw [show ({ m with
              voters := dictInsert m.voters s { value := (-1) * n, timestamp := now }
              votes := m.votes + (-1) * n
              last_updated := now } : Memory).id = memoryId from hid]
          exact dictGet_insert_self st memoryId _
        · have hsum := sumVoterValues_insert m.voters s
            { value := (-1) * n, timestamp := now } hnone
          simp only at hsum ⊢
          rw [hsum]
          omega
  | un v now =>
    cases hv2 : dictGet m.voters v with
    | none =>
      refine ⟨m, ?_, hid, hinv⟩
      simp [applyVoteCall, unvote_memory, hget, hv2]
    | some r1 =>
      refine ⟨{ m with
          voters := dictRemove m.voters v
          votes := m.votes - r1.value
          last_updated := now }, ?_, by simp [hid], ?_⟩
      · simp only [applyVoteCall, unvote_memory, hget, hv2]
        rw [show ({ m with
            voters := dictRemove m.voters v
            votes := m.votes - r1.value
            last_updated := now } : Memory).id = memoryId from hid]
        exact dictGet_insert_self st memoryId _
      · have hsum := sumVoterValues_remove m.voters v r1 hv2
        simp only at hsum ⊢
        rw [hsum]
        omega

theorem runVoteCalls_preserves (memoryId : String) (calls : List VoteCall) :
    ∀ (st : StoreState) (m : Memory) (cinv : Int),
      (∀ c ∈ calls, namedCall c = true) →
      dictGet st memoryId = some m → m.id = memoryId →
      m.votes = 1 + sumVoterValues m.voters - cinv →
      ∀ m1, dictGet (runVoteCalls memoryId st calls) memoryId = some m1 →
        m1.votes = 1 + sumVoterValues m1.voters - cinv := by
  induction calls with
  | nil =>
    intro st m cinv _ hget _ hinv m1 h1
    simp only [runVoteCalls] at h1
    rw [hget] at h1
    injection h1 with h2
    exact h2 ▸ hinv
  | cons c cs ih =>
    intro st m cinv hcalls hget hid hinv m1 h1
    have hc := hcalls c (List.mem_cons_self c cs)
    obtain ⟨m2, hget2, hid2, hinv2⟩ :=
      applyVoteCall_preserves memoryId st c hc m cinv hget hid hinv
    have hcs : ∀ x ∈ cs, namedCall x = true :=
      fun x hx => hcalls x (List.mem_cons_of_mem c hx)
    exact ih (applyVoteCall memoryId st c) m2 cinv hcs hget2 hid2 hinv2 m1
      (by simpa only [runVoteCalls] using h1)

/-- C1 counterexample: the claim fails already for the empty sequence of
votes when the memory is created with a creation-time voter id.  Creation
with voter v1 yields votes = 1 together with a pre-registered voters entry
of value 1, so votes differs from 1 plus the sum of voter values (= 2). -/
theorem vote_conservation_counterexample :
    (create_memory [] 0 "m1" "hello" none none (some "v1")).2 =
      Except.ok { id := "m1", content := "hello", votes := 1, created_at := 0,
                  last_updated := 0, creator := none, tags := [],
                  voters := [("v1", { value := 1, timestamp := 0 })],
                  last_anon_vote_at := none } ∧
    ¬((1 : Int) = 1 + sumVoterValues [("v1", { value := 1, timestamp := 0 })]) :=
  ⟨rfl, by decide⟩

/-- C1 amended: after creating a memory and applying any sequence of
upvote, downvote and unvote calls on it that carry non-empty voter ids
(no anonymous votes), the stored votes field equals 1 plus the sum of the
values of the current voters entries, minus 1 when the memory was created
with a truthy voter id (whose pre-registered entry represents the creation
vote itself).  Failed calls leave the store unchanged, so success of the
calls need not be assumed; distinctness of voter ids is enforced by the
dedupe check and need not be assumed either. -/
theorem vote_conservation (st0 : StoreState) (now : Timestamp)
    (genId content : String) (creator : Option String)
    (tags : Option (List String)) (voterId : Option String)
    (calls : List VoteCall)
    (hcontent : (content.data.isEmpty || isBlank content) = false)
    (hcalls : ∀ c ∈ calls, namedCall c = true) :
    ∀ m, dictGet (runVoteCalls genId
        (create_memory st0 now genId content creator tags voterId).1 calls)
        genId = some m →
      m.votes = 1 + sumVoterValues m.voters -
        (if (truthyStr voterId).isSome then 1 else 0) := by
  have hmem0 :
      (create_memory st0 now genId content creator tags voterId).1 =
        dictInsert st0 genId
          { id := genId, content := content, votes := 1, created_at := now,
            last_updated := now, creator := creator, tags := tags.getD []
            voters :=
              match truthyStr voterId with
              | some v => [(v, { value := 1, timestamp := now })]
              | none => []
            last_anon_vote_at := none } := by
    simp [create_memory, hcontent]
  intro m hm
  rw [hmem0] at hm
  refine runVoteCalls_preserves genId calls _ _
    (if (truthyStr voterId).isSome then 1 else 0) hcalls
    (dictGet_insert_self _ _ _) rfl ?_ m hm
  cases h : truthyStr voterId with
  | some v => simp [sumVoterValues, h]
  | none => simp [sumVoterValues, h]

/-- Witness for C1: create with voter v1, upvote as v2 at instant 1,
unvote v1 at instant 2; the resulting memory satisfies the amended
invariant. -/
theorem vote_conservation_witness :
    conservationMem.votes = 1 + sumVoterValues conservationMem.voters -
      (if (truthyStr (some "v1")).isSome then 1 else 0) :=
  vote_conservation [] 0 "m9" "hello" none none (some "v1")
    [VoteCall.up (some "v2") 1 1, VoteCall.un "v1" 2]
    (by decide) (by decide) conservationMem (by decide)

theorem insertByDesc_perm (key : Memory → Int) (x : Memory) (l : List Memory) :
    (insertByDesc key x l).Perm (x :: l) := by
  induction l with
  | nil => exact List.Perm.refl _
  | cons y ys ih =>
    by_cases h : key y ≤ key x
    · simp [insertByDesc, h]
    · simp only [insertByDesc, if_neg h]
      exact (ih.cons y).trans (List.Perm.swap x y ys)

theorem sortByDesc_perm (key : Memory → Int) (l : List Memory) :
    (sortByDesc key l).Perm l := by
  induction l with
  | nil => exact List.Perm.refl _
  | cons x xs ih =>
    exact (insertByDesc_perm key x (sortByDesc key xs)).trans (ih.cons x)

theorem insertByDesc_sorted (key : Memory → Int) (x : Memory) (l : List Memory)
    (h : l.Pairwise (fun a b => key b ≤ key a)) :
    (insertByDesc key x l).Pairwise (fun a b => key b ≤ key a) := by
  induction l with
  | nil => simp [insertByDesc]
  | cons y ys ih =>
    rcases List.pairwise_cons.mp h with ⟨hy, hys⟩
    by_cases hc : key y ≤ key x
    · simp only [insertByDesc, if_pos hc]
      refine List.pairwise_cons.mpr ⟨?_, h⟩
      intro b hb
      rcases List.mem_cons.mp hb with hb | hb
      · subst hb
        omega
      · have := hy b hb
        omega
    · simp only [insertByDesc, if_neg hc]
      refine List.pairwise_cons.mpr ⟨?_, ih hys⟩
      intro b hb
      have hmem : b ∈ x :: ys := (insertByDesc_perm key x ys).mem_iff.mp hb
      rcases List.mem_cons.mp hmem with hb' | hb'
      · subst hb'
        omega
      · exact hy b hb'

theorem sortByDesc_sorted (key : Memory → Int) (l : List Memory) :
    (sortByDesc key l).Pairwise (fun a b => key b ≤ key a) := by
  induction l with
  | nil => simp [sortByDesc]
  | cons x xs ih => exact insertByDesc_sorted key x _ ih

/-- C7: `list_memories` rejects any order key other than "votes" and
"created_at" with invalid-input; for the two valid keys it returns the
stored memories filtered to those whose tag set intersects a non-empty
requested tag list, sorted descending by the chosen key, truncated to the
limit when one is given; a limit at least the size of the filtered result
is a no-op. -/
theorem list_semantics (st : StoreState) (order_by : String) (limit : Option Nat)
    (k : Nat) (tags : Option (List String)) :
    (¬(order_by = "votes" ∨ order_by = "created_at") →
      list_memories st order_by limit tags = .error .invalidInput) ∧
    (∃ l, list_memories st "votes" limit tags = .ok (truncateTo limit l) ∧
      l.Perm (filterByTags tags (dictValues st)) ∧
      l.Pairwise (fun a b => b.votes ≤ a.votes)) ∧
    (∃ l, list_memories st "created_at" limit tags = .ok (truncateTo limit l) ∧
      l.Perm (filterByTags tags (dictValues st)) ∧
      l.Pairwise (fun a b => b.created_at ≤ a.created_at)) ∧
    ((order_by = "votes" ∨ order_by = "created_at") →
      (filterByTags tags (dictValues st)).length ≤ k →
      list_memories st order_by (some k) tags =
        list_memories st order_by none tags) := by
  refine ⟨fun h => ?_, ?_, ?_, fun hob hk => ?_⟩
  · rcases not_or.mp h with ⟨h1, h2⟩
    simp [list_memories, h1, h2]
  · exact ⟨sortByDesc (fun m => m.votes) (filterByTags tags (dictValues st)),
      by simp [list_memories],
      (sortByDesc_perm _ _),
      sortByDesc_sorted _ _⟩
  · exact ⟨sortByDesc (fun m => m.created_at) (filterByTags tags (dictValues st)),
      by simp [list_memories],
      (sortByDesc_perm _ _),
      sortByDesc_sorted _ _⟩
  · rcases hob with rfl | rfl
    · have hlen : (sortByDesc (fun m => m.votes)
          (filterByTags tags (dictValues st))).length ≤ k := by
        rw [(sortByDesc_perm _ _).length_eq]
        exact hk
      simp [list_memories, truncateTo, List.take_of_length_le hlen]
    · have hlen : (sortByDesc (fun m => m.created_at)
          (filterByTags tags (dictValues st))).length ≤ k := by
        rw [(sortByDesc_perm _ _).length_eq]
        exact hk
      simp [list_memories, truncateTo, List.take_of_length_le hlen]

/-- Witness for C7: an invalid order key is rejected, and a limit larger
than the store is a no-op, on `sampleStore`. -/
theorem list_semantics_witness :
    list_memories sampleStore "id" none none = .error .invalidInput ∧
    list_memories sampleStore "votes" (some 5) none =
      list_memories sampleStore "votes" none none :=
  ⟨(list_semantics sampleStore "id" none 0 none).1 (by decide),
   (list_semantics sampleStore "votes" (some 5) 5 none).2.2.2 (Or.inl rfl)
     (by decide)⟩

/-- C5 counterexample: the "only if" direction fails at voter_id = "".
The caller supplies a voter id (the empty string, a value distinct from
supplying none), yet `get_memories` still generates and embeds a fresh
voter_id in the response, because the Python truthiness test `not voter_id`
treats the empty string like an absent argument. -/
theorem projection_counterexample :
    (get_memories sampleStore (some "") (fun l => l) "fresh-id").voter_id =
      some "fresh-id" ∧
    (some "" : Option String) ≠ none := by
  constructor <;> decide

/-- C5 amended: every item of the `get_memories` response carries exactly
the keys id, content and tags (so never votes or voters), and the response
embeds the freshly generated voter_id exactly when the caller supplied no
voter_id or supplied an empty-string one (which the code treats as
absent).  The hypothesis reflects that generated uuid strings are
non-empty. -/
theorem projection_amended (st : StoreState) (voterId : Option String)
    (shuffle : List Memory → List Memory) (genId : String) (hg : genId ≠ "") :
    (∀ item ∈ (get_memories st voterId shuffle genId).memories,
      item.map Prod.fst = ["id", "content", "tags"]) ∧
    ((get_memories st voterId shuffle genId).voter_id = some genId ↔
      (voterId = none ∨ voterId = some "")) := by
  constructor
  · intro item hitem
    simp only [get_memories, List.mem_map] at hitem
    obtain ⟨m, _, rfl⟩ := hitem
    rfl
  · cases voterId with
    | none =>
      simp [get_memories, truthyStr, string_ne_empty_data genId hg]
    | some s =>
      by_cases hs : s = ""
      · subst hs
        simp [get_memories, truthyStr, string_ne_empty_data genId hg]
      · simp [get_memories, truthyStr, string_ne_empty_data s hs, hs]

/-- Witness for C5 (amended): with no voter id supplied, the response
embeds the generated identifier. -/
theorem projection_amended_witness :
    (get_memories sampleStore none (fun l => l) "fresh-id").voter_id =
      some "fresh-id" :=
  (projection_amended sampleStore none (fun l => l) "fresh-id"
    (by decide)).2.mpr (Or.inl rfl)

/-- C10: an empty-string voter_id behaves exactly like an absent one
throughout the public interface: create_memory, upvote_memory,
downvote_memory and get_memories return identical results for voter_id ""
and voter_id None; in particular creation with "" records no voters
entry and get_memories with "" embeds the freshly generated voter id
(uuid strings being non-empty). -/
theorem empty_voter_id_absent (st : StoreState) (now : Timestamp)
    (genId content memoryId : String) (creator : Option String)
    (tags : Option (List String)) (n : Int)
    (shuffle : List Memory → List Memory) (genVoter : String) :
    create_memory st now genId content creator tags (some "") =
      create_memory st now genId content creator tags none ∧
    upvote_memory st now memoryId (some "") n =
      upvote_memory st now memoryId none n ∧
    downvote_memory st now memoryId (some "") n =
      downvote_memory st now memoryId none n ∧
    get_memories st (some "") shuffle genVoter =
      get_memories st none shuffle genVoter ∧
    (∀ m', (create_memory st now genId content creator tags (some "")).2 =
        .ok m' → m'.voters = []) ∧
    (genVoter ≠ "" →
      (get_memories st (some "") shuffle genVoter).voter_id = some genVoter) := by
  have he : truthyStr (some "") = truthyStr none := by decide
  refine ⟨?_, ?_, ?_, ?_, ?_, ?_⟩
  · simp only [create_memory, he]
  · simp only [upvote_memory, _vote, he]
  · simp only [downvote_memory, _vote, he]
  · simp only [get_memories, he]
  · intro m' hm'
    by_cases hc : (content.data.isEmpty || isBlank content) = true
    · simp [create_memory, hc] at hm'
    · simp only [create_memory, hc, Bool.false_eq_true, if_false] at hm'
      injection hm' with h2
      rw [← h2]
      simp [truthyStr]
  · intro hg
    simp [get_memories, truthyStr, string_ne_empty_data genVoter hg]

/-- Witness for C10: get_memories with an empty-string voter id embeds the
generated identifier. -/
theorem empty_voter_id_absent_witness :
    (get_memories sampleStore (some "") (fun l => l) "w-id").voter_id =
      some "w-id" :=
  (empty_voter_id_absent sampleStore 0 "g" "hello" "m1" none none 1
    (fun l => l) "w-id").2.2.2.2.2 (by decide)

theorem dictGet_map {α β : Type} (f : α → β) (st : List (String × α)) (i : String) :
    dictGet (st.map fun kv => (kv.1, f kv.2)) i = (dictGet st i).map f := by
  induction st with
  | nil => rfl
  | cons kv rest ih =>
    obtain ⟨k, v⟩ := kv
    by_cases h : k = i
    · simp [dictGet, h]
    · simp [dictGet, h, ih]

theorem dictRemove_map {α β : Type} (f : α → β) (st : List (String × α)) (i : String) :
    dictRemove (st.map fun kv => (kv.1, f kv.2)) i =
      (dictRemove st i).map fun kv => (kv.1, f kv.2) := by
  induction st with
  | nil => rfl
  | cons kv rest ih =>
    obtain ⟨k, v⟩ := kv
    by_cases h : k = i
    · simp [dictRemove, h]
    · simp [dictRemove, h, ih]

theorem dictInsert_map {α β : Type} (f : α → β) (st : List (String × α))
    (k : String) (v : α) :
    dictInsert (st.map fun kv => (kv.1, f kv.2)) k (f v) =
      (dictInsert st k v).map fun kv => (kv.1, f kv.2) := by
  induction st with
  | nil => rfl
  | cons kv rest ih =>
    obtain ⟨k', v'⟩ := kv
    by_cases h : k' = k
    · simp [dictInsert, h]
    · simp [dictInsert, h, ih]

theorem dictGet_eq_none_iff {α : Type} (st : List (String × α)) (i : String) :
    dictGet st i = none ↔ i ∉ st.map Prod.fst := by
  induction st with
  | nil => simp [dictGet]
  | cons kv rest ih =>
    obtain ⟨k, v⟩ := kv
    by_cases h : k = i
    · simp [dictGet, h]
    · simp [dictGet, h, ih, Ne.symm h]

theorem jsonSave_encode (st : MemState) (m : Memory) :
    JsonFileAdapter.save (encodeJson st) m = encodeJson (InMemoryAdapter.save st m) := by
  simp only [JsonFileAdapter.save, encodeJson, InMemoryAdapter.save]
  exact dictInsert_map Memory.to_dict st m.id m

theorem jsonGet_encode (st : MemState) (i : String) :
    JsonFileAdapter.get (encodeJson st) i = InMemoryAdapter.get st i := by
  simp only [JsonFileAdapter.get, encodeJson, InMemoryAdapter.get]
  rw [dictGet_map]
  cases h : dictGet st i with
  | none => rfl
  | some m => simp [mem_from_to_dict]

theorem jsonDelete_encode (st : MemState) (i : String) :
    JsonFileAdapter.delete (encodeJson st) i =
      (encodeJson (InMemoryAdapter.delete st i).1,
       (InMemoryAdapter.delete st i).2) := by
  simp only [JsonFileAdapter.delete, InMemoryAdapter.delete, encodeJson]
  rw [dictGet_map]
  cases h : dictGet st i with
  | none => simp [dictRemove_eq_of_get_none st i h]
  | some m => simp [dictRemove_map]

theorem jsonListAll_encode (st : MemState) :
    JsonFileAdapter.list_all (encodeJson st) = InMemoryAdapter.list_all st := by
  simp only [JsonFileAdapter.list_all, encodeJson, InMemoryAdapter.list_all,
    dictValues, List.map_map]
  apply List.map_congr_left
  intro kv _
  simp [mem_from_to_dict]

theorem sql_roundtrip (m : Memory) :
    SqliteAdapter.row_to_memory (SqliteAdapter.memory_to_params m) = m := by
  simp [SqliteAdapter.row_to_memory, SqliteAdapter.memory_to_params,
    voters_roundtrip m.voters]

theorem sqlSave_encode (st : MemState) (m : Memory)
    (hw : ∀ kv ∈ st, kv.2.id = kv.1)
    (hkeep : ((dictGet st m.id).all fun m0 => m0.created_at == m.created_at) = true) :
    SqliteAdapter.save (encodeSql st) m = encodeSql (InMemoryAdapter.save st m) := by
  induction st with
  | nil => rfl
  | cons kv rest ih =>
    obtain ⟨k, mm⟩ := kv
    have hmmid : mm.id = k := hw (k, mm) (List.mem_cons_self _ _)
    by_cases h : k = m.id
    · have hca : mm.created_at = m.created_at := by
        rw [show dictGet ((k, mm) :: rest) m.id = some mm by simp [dictGet, h]] at hkeep
        simpa using hkeep
      simp only [encodeSql, List.map_cons, SqliteAdapter.save,
        InMemoryAdapter.save, dictInsert, if_pos h]
      rw [if_pos (show (SqliteAdapter.memory_to_params mm).id = m.id by
        simp [SqliteAdapter.memory_to_params, hmmid, h])]
      simp [SqliteAdapter.memory_to_params, hmmid, h, hca]
    · have hrest : ((dictGet rest m.id).all
          fun m0 => m0.created_at == m.created_at) = true := by
        rwa [show dictGet ((k, mm) :: rest) m.id = dictGet rest m.id by
          simp [dictGet, h]] at hkeep
      have hwrest : ∀ kv ∈ rest, kv.2.id = kv.1 :=
        fun kv hkv => hw kv (List.mem_cons_of_mem _ hkv)
      simp only [encodeSql, List.map_cons, SqliteAdapter.save,
        InMemoryAdapter.save, dictInsert, if_neg h]
      rw [if_neg (show ¬(SqliteAdapter.memory_to_params mm).id = m.id by
        simp [SqliteAdapter.memory_to_params, hmmid, h])]
      have := ih hwrest hrest
      simp only [encodeSql, SqliteAdapter.save, InMemoryAdapter.save] at this
      rw [this]

theorem sqlGet_encode (st : MemState) (i : String)
    (hw : ∀ kv ∈ st, kv.2.id = kv.1) :
    SqliteAdapter.get (encodeSql st) i = InMemoryAdapter.get st i := by
  induction st with
  | nil => rfl
  | cons kv rest ih =>
    obtain ⟨k, mm⟩ := kv
    have hmmid : mm.id = k := hw (k, mm) (List.mem_cons_self _ _)
    have hwrest : ∀ kv ∈ rest, kv.2.id = kv.1 :=
      fun kv hkv => hw kv (List.mem_cons_of_mem _ hkv)
    show (List.find? (fun r => r.id == i)
        (SqliteAdapter.memory_to_params mm :: encodeSql rest)).map
        SqliteAdapter.row_to_memory = dictGet ((k, mm) :: rest) i
    by_cases h : k = i
    · rw [List.find?_cons_of_pos _
        (by simp [SqliteAdapter.memory_to_params, hmmid, h])]
      simp [dictGet, h, sql_roundtrip]
    · rw [List.find?_cons_of_neg _
        (by simp [SqliteAdapter.memory_to_params, hmmid, h])]
      rw [show dictGet ((k, mm) :: rest) i = dictGet rest i by simp [dictGet, h]]
      exact ih hwrest

theorem sqlFilter_id (st : MemState) (i : String)
    (hw : ∀ kv ∈ st, kv.2.id = kv.1) (hnone : dictGet st i = none) :
    (encodeSql st).filter (fun r => !(r.id == i)) = encodeSql st := by
  induction st with
  | nil => rfl
  | cons kv rest ih =>
    obtain ⟨k, mm⟩ := kv
    have hmmid : mm.id = k := hw (k, mm) (List.mem_cons_self _ _)
    have hk : ¬(k = i) := by
      intro h
      simp [dictGet, h] at hnone
    have hrest : dictGet rest i = none := by
      rwa [show dictGet ((k, mm) :: rest) i = dictGet rest i by
        simp [dictGet, hk]] at hnone
    have hwrest : ∀ kv ∈ rest, kv.2.id = kv.1 :=
      fun kv hkv => hw kv (List.mem_cons_of_mem _ hkv)
    simp only [encodeSql, List.map_cons, List.filter_cons]
    rw [show (!((SqliteAdapter.memory_to_params mm).id == i)) = true by
      simp [SqliteAdapter.memory_to_params, hmmid, hk]]
    have := ih hwrest hrest
    simp only [encodeSql] at this
    simp [this]

theorem sqlDelete_encode (st : MemState) (i : String)
    (hw : ∀ kv ∈ st, kv.2.id = kv.1) (hnd : (st.map Prod.fst).Nodup) :
    SqliteAdapter.delete (encodeSql st) i =
      (encodeSql (InMemoryAdapter.delete st i).1,
       (InMemoryAdapter.delete st i).2) := by
  induction st with
  | nil => rfl
  | cons kv rest ih =>
    obtain ⟨k, mm⟩ := kv
    have hmmid : mm.id = k := hw (k, mm) (List.mem_cons_self _ _)
    have hwrest : ∀ kv ∈ rest, kv.2.id = kv.1 :=
      fun kv hkv => hw kv (List.mem_cons_of_mem _ hkv)
    have hndrest : (rest.map Prod.fst).Nodup := (List.nodup_cons.mp hnd).2
    have hknot : k ∉ rest.map Prod.fst := (List.nodup_cons.mp hnd).1
    by_cases h : k = i
    · have hnone : dictGet rest i = none :=
        (dictGet_eq_none_iff rest i).mpr (h ▸ hknot)
      simp only [SqliteAdapter.delete, InMemoryAdapter.delete, encodeSql,
        List.map_cons, List.filter_cons, List.any_cons, dictRemove, dictGet,
        if_pos h]
      rw [show ((SqliteAdapter.memory_to_params mm).id == i) = true by
        simp [SqliteAdapter.memory_to_params, hmmid, h]]
      have hfil := sqlFilter_id rest i hwrest hnone
      simp only [encodeSql] at hfil
      simp [hfil]
    · have hrw : dictGet ((k, mm) :: rest) i = dictGet rest i := by
        simp [dictGet, h]
      have := ih hwrest hndrest
      simp only [SqliteAdapter.delete, InMemoryAdapter.delete, encodeSql,
        Prod.mk.injEq] at this
      simp only [SqliteAdapter.delete, InMemoryAdapter.delete, encodeSql,
        List.map_cons, List.filter_cons, List.any_cons, dictRemove, dictGet,
        if_neg h, Prod.mk.injEq]
      rw [show ((SqliteAdapter.memory_to_params mm).id == i) = false by
        simp [SqliteAdapter.memory_to_params, hmmid, h]]
      simp [this.1, this.2]

theorem sqlListAll_encode (st : MemState) :
    SqliteAdapter.list_all (encodeSql st) = InMemoryAdapter.list_all st := by
  simp only [SqliteAdapter.list_all, encodeSql, InMemoryAdapter.list_all,
    dictValues, List.map_map]
  apply List.map_congr_left
  intro kv _
  simp [sql_roundtrip]

theorem mem_dictInsert {α : Type} (st : List (String × α)) (k : String) (v : α)
    (kv : String × α) (h : kv ∈ dictInsert st k v) : kv ∈ st ∨ kv = (k, v) := by
  induction st with
  | nil =>
    simp [dictInsert] at h
    exact Or.inr h
  | cons kv' rest ih =>
    obtain ⟨k', v'⟩ := kv'
    by_cases hk : k' = k
    · simp only [dictInsert, if_pos hk] at h
      rcases List.mem_cons.mp h with h | h
      · exact Or.inr h
      · exact Or.inl (List.mem_cons_of_mem _ h)
    · simp only [dictInsert, if_neg hk] at h
      rcases List.mem_cons.mp h with h | h
      · exact Or.inl (h ▸ List.mem_cons_self _ _)
      · rcases ih h with h | h
        · exact Or.inl (List.mem_cons_of_mem _ h)
        · exact Or.inr h

theorem keys_dictInsert {α : Type} (st : List (String × α)) (k : String) (v : α)
    (a : String) :
    a ∈ (dictInsert st k v).map Prod.fst ↔ a ∈ st.map Prod.fst ∨ a = k := by
  induction st with
  | nil => simp [dictInsert]
  | cons kv rest ih =>
    obtain ⟨k', v'⟩ := kv
    by_cases hk : k' = k
    · subst hk
      simp [dictInsert]
      tauto
    · simp [dictInsert, hk, ih]
      tauto

theorem nodup_keys_dictInsert {α : Type} (st : List (String × α)) (k : String)
    (v : α) (h : (st.map Prod.fst).Nodup) :
    ((dictInsert st k v).map Prod.fst).Nodup := by
  induction st with
  | nil => simp [dictInsert]
  | cons kv rest ih =>
    obtain ⟨k', v'⟩ := kv
    obtain ⟨hhead, htail⟩ := List.nodup_cons.mp h
    by_cases hk : k' = k
    · subst hk
      simp only [dictInsert, if_pos rfl, List.map_cons]
      exact List.nodup_cons.mpr ⟨hhead, htail⟩
    · simp only [dictInsert, if_neg hk, List.map_cons]
      refine List.nodup_cons.mpr ⟨?_, ih htail⟩
      intro hmem
      rcases (keys_dictInsert rest k v k').mp hmem with hmem | hmem
      · exact hhead hmem
      · exact hk hmem

theorem mem_dictRemove {α : Type} (st : List (String × α)) (i : String)
    (kv : String × α) (h : kv ∈ dictRemove st i) : kv ∈ st := by
  induction st with
  | nil => simp [dictRemove] at h
  | cons kv' rest ih =>
    obtain ⟨k', v'⟩ := kv'
    by_cases hk : k' = i
    · simp only [dictRemove, if_pos hk] at h
      exact List.mem_cons_of_mem _ h
    · simp only [dictRemove, if_neg hk] at h
      rcases List.mem_cons.mp h with h | h
      · exact h ▸ List.mem_cons_self _ _
      · exact List.mem_cons_of_mem _ (ih h)

theorem keys_dictRemove_sublist {α : Type} (st : List (String × α)) (i : String) :
    ((dictRemove st i).map Prod.fst).Sublist (st.map Prod.fst) := by
  induction st with
  | nil => simp [dictRemove]
  | cons kv rest ih =>
    obtain ⟨k', v'⟩ := kv
    by_cases hk : k' = i
    · simp only [dictRemove, if_pos hk, List.map_cons]
      exact List.sublist_cons_self _ _
    · simp only [dictRemove, if_neg hk, List.map_cons]
      exact ih.cons₂ k'

theorem goodState_save (st : MemState) (m : Memory) (h : GoodState st) :
    GoodState (InMemoryAdapter.save st m) := by
  refine ⟨fun kv hkv => ?_, nodup_keys_dictInsert st m.id m h.2⟩
  rcases mem_dictInsert st m.id m kv hkv with hkv | hkv
  · exact h.1 kv hkv
  · rw [hkv]

theorem goodState_remove (st : MemState) (i : String) (h : GoodState st) :
    GoodState (dictRemove st i) :=
  ⟨fun kv hkv => h.1 kv (mem_dictRemove st i kv hkv),
   h.2.sublist (keys_dictRemove_sublist st i)⟩

theorem run_correspond (ops : List AdapterOp) :
    ∀ st : MemState, GoodState st → keepsCreated ops st = true →
      runJson ops (encodeJson st) = encodeJson (runMem ops st) ∧
      runSql ops (encodeSql st) = encodeSql (runMem ops st) ∧
      GoodState (runMem ops st) := by
  induction ops with
  | nil =>
    intro st good _
    exact ⟨rfl, rfl, good⟩
  | cons op ops ih =>
    intro st good hkeep
    cases op with
    | save m =>
      simp only [keepsCreated, Bool.and_eq_true] at hkeep
      obtain ⟨h1, h2⟩ := hkeep
      obtain ⟨ihj, ihs, ihg⟩ :=
        ih (InMemoryAdapter.save st m) (goodState_save st m good) h2
      refine ⟨?_, ?_, ihg⟩
      · simp only [runJson, runMem, jsonSave_encode st m, ihj]
      · simp only [runSql, runMem, sqlSave_encode st m good.1 h1, ihs]
    | delete i =>
      simp only [keepsCreated] at hkeep
      obtain ⟨ihj, ihs, ihg⟩ :=
        ih (InMemoryAdapter.delete st i).1 (goodState_remove st i good) hkeep
      refine ⟨?_, ?_, ihg⟩
      · simp only [runJson, runMem]
        rw [show (JsonFileAdapter.delete (encodeJson st) i).1 =
            encodeJson (InMemoryAdapter.delete st i).1 from
          congrArg Prod.fst (jsonDelete_encode st i), ihj]
      · simp only [runSql, runMem]
        rw [show (SqliteAdapter.delete (encodeSql st) i).1 =
            encodeSql (InMemoryAdapter.delete st i).1 from
          congrArg Prod.fst (sqlDelete_encode st i good.1 good.2), ihs]

/-- C9 counterexample: saving a memory whose id already exists with a new
created_at value desynchronizes the SQLite backend from the other two.
The SQLite upsert does not list created_at in its ON CONFLICT SET clause,
so after saving cexMemA (created at 1) and then cexMemB (same id, created
at 2), the SQLite adapter returns the old creation instant while the
in-memory adapter returns the new one. -/
theorem adapters_equiv_counterexample :
    SqliteAdapter.get (runSql [AdapterOp.save cexMemA, AdapterOp.save cexMemB] []) "a" ≠
      InMemoryAdapter.get (runMem [AdapterOp.save cexMemA, AdapterOp.save cexMemB] []) "a" := by
  decide

/-- C9 amended: the volatile, JSON-file and SQLite adapters are
observationally equivalent through save/get/delete/list_all for every call
sequence in which each save of an already-stored id carries the stored
created_at unchanged (in particular, for every sequence the Store itself
issues, since the Store never rewrites created_at); without that proviso
SQLite alone preserves the original created_at on upsert.  Results agree
field-for-field, list_all up to order. -/
theorem adapters_equiv (ops : List AdapterOp)
    (hkeep : keepsCreated ops [] = true) :
    (∀ i, JsonFileAdapter.get (runJson ops []) i =
      InMemoryAdapter.get (runMem ops []) i) ∧
    (∀ i, SqliteAdapter.get (runSql ops []) i =
      InMemoryAdapter.get (runMem ops []) i) ∧
    JsonFileAdapter.list_all (runJson ops []) =
      InMemoryAdapter.list_all (runMem ops []) ∧
    (SqliteAdapter.list_all (runSql ops [])).Perm
      (InMemoryAdapter.list_all (runMem ops [])) ∧
    (∀ i, (JsonFileAdapter.delete (runJson ops []) i).2 =
      (InMemoryAdapter.delete (runMem ops []) i).2) ∧
    (∀ i, (SqliteAdapter.delete (runSql ops []) i).2 =
      (InMemoryAdapter.delete (runMem ops []) i).2) := by
  obtain ⟨hj, hs, hg⟩ := run_correspond ops [] ⟨by simp, by simp⟩ hkeep
  have hj' : runJson ops [] = encodeJson (runMem ops []) := hj
  have hs' : runSql ops [] = encodeSql (runMem ops []) := hs
  refine ⟨fun i => ?_, fun i => ?_, ?_, ?_, fun i => ?_, fun i => ?_⟩
  · rw [hj']
    exact jsonGet_encode _ i
  · rw [hs']
    exact sqlGet_encode _ i hg.1
  · rw [hj']
    exact jsonListAll_encode _
  · rw [hs', sqlListAll_encode _]
  · rw [hj']
    exact congrArg Prod.snd (jsonDelete_encode _ i)
  · rw [hs']
    exact congrArg Prod.snd (sqlDelete_encode _ i hg.1 hg.2)

/-- Witness for C9 (amended): a save, an id-preserving re-save and a
delete agree between the SQLite and in-memory backends. -/
theorem adapters_equiv_witness :
    SqliteAdapter.get
      (runSql [AdapterOp.save cexMemA, AdapterOp.save { cexMemA with content := "y2" },
               AdapterOp.delete "z"] []) "a" =
      InMemoryAdapter.get
        (runMem [AdapterOp.save cexMemA, AdapterOp.save { cexMemA with content := "y2" },
                 AdapterOp.delete "z"] []) "a" :=
  (adapters_equiv
    [AdapterOp.save cexMemA, AdapterOp.save { cexMemA with content := "y2" },
     AdapterOp.delete "z"] (by decide)).2.1 "a"
